import Mathlib

/-!
Verification of the Pastezen VS Code extension's content-protection subsystem.

The development shallowly embeds the repository's TypeScript sources:
  * `crypto.ts` (`deriveKey`, `encryptContent`, `decryptContent`): AES-256-GCM
    sealing under a PBKDF2-SHA-256 derived key, with base64 transport encoding.
    The Node.js `crypto` primitives invoked by name (`pbkdf2Sync` with
    `'sha256'`, `createCipheriv`/`createDecipheriv` with `'aes-256-gcm'`,
    `Buffer` base64 and UTF-8 codecs) are embedded as executable Lean
    implementations of those published algorithms.
  * `pastesProvider.ts` (`PastesProvider.getChildren`, `refresh`): the unlock
    session cache, embedded as a pure step function over an explicit state,
    with the remote store and the passphrase prompt as environment oracles and
    an event log recording every external invocation.
  * `extension.ts` (`createPaste`, `saveToPastezen`) and `api.ts`
    (`createPaste` payload assembly, `updatePaste`): the request payloads the
    presentation layer builds around the codec.

Bytes are `Nat` values; a byte-producing operation normalises with `% 256`
exactly where the JavaScript `Buffer` representation truncates to octets.
-/

/-- Byte-level xor as performed on Node `Buffer` octets (result truncated to
one byte; the truncation is a no-op for genuine byte inputs). -/
def bxor (a b : Nat) : Nat := (a ^^^ b) % 256

theorem bxor_lt (a b : Nat) : bxor a b < 256 := Nat.mod_lt _ (by norm_num)

theorem bxor_bxor_cancel (a k : Nat) (ha : a < 256) (hk : k < 256) :
    bxor (bxor a k) k = a := by
  unfold bxor
  have h1 : a ^^^ k < 256 := Nat.xor_lt_two_pow (n := 8) ha hk
  rw [Nat.mod_eq_of_lt h1, Nat.xor_assoc, Nat.xor_self, Nat.xor_zero,
    Nat.mod_eq_of_lt ha]

theorem mem_zipWith_bxor_lt (l1 l2 : List Nat) :
    ∀ x ∈ List.zipWith bxor l1 l2, x < 256 := by
  induction l1 generalizing l2 with
  | nil => simp
  | cons a as ih =>
    cases l2 with
    | nil => simp
    | cons b bs =>
      intro x hx
      simp only [List.zipWith_cons_cons, List.mem_cons] at hx
      rcases hx with h | h
      · subst h; exact bxor_lt a b
      · exact ih bs x h

/-- Xor-ing twice with the same keystream restores the plaintext, provided the
keystream is at least as long as the data and both are genuine byte lists. -/
theorem zipWith_bxor_involution (pt ks : List Nat)
    (hlen : pt.length ≤ ks.length)
    (hpt : ∀ x ∈ pt, x < 256) (hks : ∀ x ∈ ks, x < 256) :
    List.zipWith bxor (List.zipWith bxor pt ks) ks = pt := by
  induction pt generalizing ks with
  | nil => simp
  | cons a as ih =>
    cases ks with
    | nil => simp at hlen
    | cons k ks' =>
      simp only [List.zipWith_cons_cons]
      rw [bxor_bxor_cancel a k (hpt a (by simp)) (hks k (by simp)),
        ih ks' (by simpa using hlen) (fun x hx => hpt x (by simp [hx]))
          (fun x hx => hks x (by simp [hx]))]

theorem length_zipWith_bxor_of_le (pt ks : List Nat) (h : pt.length ≤ ks.length) :
    (List.zipWith bxor pt ks).length = pt.length := by
  rw [List.length_zipWith]; omega

/-! ## Base64 (Node `Buffer.toString('base64')` / `Buffer.from(_, 'base64')`)

Node's decoder is lenient: it stops at the first `'='` padding character,
skips other characters outside the alphabet, and a trailing group of 2 or 3
sextets contributes its complete bytes.  It never throws. -/

/-- The base64 alphabet, indexed by sextet value. -/
def sextetToChar (n : Nat) : Char :=
  if n < 26 then Char.ofNat (65 + n)
  else if n < 52 then Char.ofNat (97 + (n - 26))
  else if n < 62 then Char.ofNat (48 + (n - 52))
  else if n = 62 then Char.ofNat 43
  else Char.ofNat 47

/-- Inverse alphabet lookup; `none` for characters outside the alphabet. -/
def charToSextet (c : Char) : Option Nat :=
  let v := c.toNat
  if 65 ≤ v ∧ v ≤ 90 then some (v - 65)
  else if 97 ≤ v ∧ v ≤ 122 then some (v - 97 + 26)
  else if 48 ≤ v ∧ v ≤ 57 then some (v - 48 + 52)
  else if v = 43 then some 62
  else if v = 47 then some 63
  else none

def b64encodeGo : List Nat → List Char
  | [] => []
  | [a] => [sextetToChar (a / 4), sextetToChar (a % 4 * 16), Char.ofNat 61, Char.ofNat 61]
  | [a, b] => [sextetToChar (a / 4), sextetToChar (a % 4 * 16 + b / 16),
      sextetToChar (b % 16 * 4), Char.ofNat 61]
  | a :: b :: c :: rest =>
      sextetToChar (a / 4) :: sextetToChar (a % 4 * 16 + b / 16) ::
        sextetToChar (b % 16 * 4 + c / 64) :: sextetToChar (c % 64) :: b64encodeGo rest

/-- `Buffer.prototype.toString('base64')`. -/
def b64encode (bs : List Nat) : String := String.mk (b64encodeGo bs)

/-- Regroup a stream of sextets into bytes (4 sextets to 3 bytes; a trailing
pair or triple yields the bytes whose bits are complete). -/
def sextetsToBytes : List Nat → List Nat
  | s0 :: s1 :: s2 :: s3 :: rest =>
      (s0 * 4 + s1 / 16) :: (s1 % 16 * 16 + s2 / 4) :: (s2 % 4 * 64 + s3) ::
        sextetsToBytes rest
  | [s0, s1] => [s0 * 4 + s1 / 16]
  | [s0, s1, s2] => [s0 * 4 + s1 / 16, s1 % 16 * 16 + s2 / 4]
  | _ => []

/-- Sextet stream of a base64 text: decoding stops at the first `'='` (as
Node's decoder does); other non-alphabet characters are skipped. -/
def b64sextets : List Char → List Nat
  | [] => []
  | c :: rest =>
    if c = Char.ofNat 61 then []
    else
      match charToSextet c with
      | some v => v :: b64sextets rest
      | none => b64sextets rest

/-- `Buffer.from(s, 'base64')`: decode up to the first `'='`, regroup.  It
never throws. -/
def b64decode (s : String) : List Nat :=
  sextetsToBytes (b64sextets s.data)

theorem charToSextet_sextetToChar (n : Nat) (hn : n < 64) :
    charToSextet (sextetToChar n) = some n := by
  interval_cases n <;> decide

theorem sextetToChar_ne_pad (n : Nat) (hn : n < 64) :
    sextetToChar n ≠ Char.ofNat 61 := by
  interval_cases n <;> decide

theorem b64_roundtrip (bs : List Nat) (hb : ∀ x ∈ bs, x < 256) :
    b64decode (b64encode bs) = bs := by
  unfold b64decode b64encode
  show sextetsToBytes (b64sextets (b64encodeGo bs)) = bs
  induction bs using b64encodeGo.induct with
  | case1 => rfl
  | case2 a =>
    have ha : a < 256 := hb a (by simp)
    simp only [b64encodeGo]
    rw [b64sextets, if_neg (sextetToChar_ne_pad _ (by omega)),
      charToSextet_sextetToChar _ (by omega)]
    dsimp only
    rw [b64sextets, if_neg (sextetToChar_ne_pad _ (by omega)),
      charToSextet_sextetToChar _ (by omega)]
    dsimp only
    rw [b64sextets, if_pos rfl]
    show sextetsToBytes [a / 4, a % 4 * 16] = [a]
    simp only [sextetsToBytes, List.cons.injEq, and_true]
    omega
  | case3 a b =>
    have ha : a < 256 := hb a (by simp)
    have hbb : b < 256 := hb b (by simp)
    simp only [b64encodeGo]
    rw [b64sextets, if_neg (sextetToChar_ne_pad _ (by omega)),
      charToSextet_sextetToChar _ (by omega)]
    dsimp only
    rw [b64sextets, if_neg (sextetToChar_ne_pad _ (by omega)),
      charToSextet_sextetToChar _ (by omega)]
    dsimp only
    rw [b64sextets, if_neg (sextetToChar_ne_pad _ (by omega)),
      charToSextet_sextetToChar _ (by omega)]
    dsimp only
    rw [b64sextets, if_pos rfl]
    show sextetsToBytes [a / 4, a % 4 * 16 + b / 16, b % 16 * 4] = [a, b]
    simp only [sextetsToBytes, List.cons.injEq, and_true]
    constructor
    · omega
    · omega
  | case4 a b c rest ih =>
    have ha : a < 256 := hb a (by simp)
    have hbb : b < 256 := hb b (by simp)
    have hc : c < 256 := hb c (by simp)
    simp only [b64encodeGo]
    rw [b64sextets, if_neg (sextetToChar_ne_pad _ (by omega)),
      charToSextet_sextetToChar _ (by omega)]
    dsimp only
    rw [b64sextets, if_neg (sextetToChar_ne_pad _ (by omega)),
      charToSextet_sextetToChar _ (by omega)]
    dsimp only
    rw [b64sextets, if_neg (sextetToChar_ne_pad _ (by omega)),
      charToSextet_sextetToChar _ (by omega)]
    dsimp only
    rw [b64sextets, if_neg (sextetToChar_ne_pad _ (by omega)),
      charToSextet_sextetToChar _ (by omega)]
    dsimp only
    simp only [sextetsToBytes]
    rw [ih (fun x hx => hb x (by simp [hx]))]
    simp only [List.cons.injEq, and_true]
    exact ⟨by omega, by omega, by omega⟩

theorem b64encode_ne_empty (bs : List Nat) (h : bs ≠ []) : b64encode bs ≠ "" := by
  unfold b64encode
  cases bs with
  | nil => exact absurd rfl h
  | cons a rest =>
    cases rest with
    | nil =>
      intro hc
      have hd := congrArg String.data hc
      simp [b64encodeGo] at hd
    | cons b rest2 =>
      cases rest2 with
      | nil =>
        intro hc
        have hd := congrArg String.data hc
        simp [b64encodeGo] at hd
      | cons c rest3 =>
        intro hc
        have hd := congrArg String.data hc
        simp [b64encodeGo] at hd

/-! ## UTF-8 (Node `Buffer.from(s, 'utf8')` / `Buffer.prototype.toString('utf8')`)

Encoding maps each Unicode scalar value to 1-4 bytes.  Decoding is total,
as in Node: well-formed sequences decode exactly; an ill-formed byte yields
U+FFFD and decoding resumes at the next byte.  (Node's maximal-subpart
policy can consume several bytes per replacement; no property proved here
touches ill-formed content, which arises only from tampered data.) -/

def utf8EncodeVal (v : Nat) : List Nat :=
  if v < 128 then [v]
  else if v < 2048 then [192 + v / 64, 128 + v % 64]
  else if v < 65536 then [224 + v / 4096, 128 + v / 64 % 64, 128 + v % 64]
  else [240 + v / 262144, 128 + v / 4096 % 64, 128 + v / 64 % 64, 128 + v % 64]

def utf8EncodeVals (vs : List Nat) : List Nat :=
  (vs.map utf8EncodeVal).flatten

/-- UTF-8 bytes of a string's scalar values (`Buffer.from(s, 'utf8')`). -/
def utf8Encode (s : String) : List Nat :=
  utf8EncodeVals (s.data.map Char.toNat)


/-- Decode a single UTF-8 sequence from the head of a byte list, returning the
scalar value and the remaining bytes. -/
def utf8DecodeOne : List Nat → Option (Nat × List Nat)
  | [] => none
  | b0 :: rest =>
    if b0 < 128 then some (b0, rest)
    else if b0 < 192 then none
    else if b0 < 224 then
      match rest with
      | b1 :: rest2 =>
        if 128 ≤ b1 ∧ b1 < 192 then some ((b0 - 192) * 64 + (b1 - 128), rest2)
        else none
      | [] => none
    else if b0 < 240 then
      match rest with
      | b1 :: b2 :: rest2 =>
        if 128 ≤ b1 ∧ b1 < 192 ∧ 128 ≤ b2 ∧ b2 < 192 then
          some ((b0 - 224) * 4096 + (b1 - 128) * 64 + (b2 - 128), rest2)
        else none
      | _ => none
    else if b0 < 248 then
      match rest with
      | b1 :: b2 :: b3 :: rest2 =>
        if 128 ≤ b1 ∧ b1 < 192 ∧ 128 ≤ b2 ∧ b2 < 192 ∧ 128 ≤ b3 ∧ b3 < 192 then
          some ((b0 - 240) * 262144 + (b1 - 128) * 4096 + (b2 - 128) * 64 + (b3 - 128), rest2)
        else none
      | _ => none
    else none

/-- Iterated decoding to scalar values.  Each step consumes at least one
byte, so fuel equal to the byte count never runs out; an ill-formed byte
yields U+FFFD (65533) and decoding resumes one byte later. -/
def utf8DecodeGoL : Nat → List Nat → List Nat
  | 0, _ => []
  | fuel + 1, bs =>
    if bs = [] then []
    else
      match utf8DecodeOne bs with
      | some (v, rest) => v :: utf8DecodeGoL fuel rest
      | none => 65533 :: utf8DecodeGoL fuel (bs.drop 1)

/-- `Buffer.prototype.toString('utf8')`: total, never throws. -/
def utf8ToString (bs : List Nat) : String :=
  String.mk ((utf8DecodeGoL bs.length bs).map Char.ofNat)

theorem utf8EncodeVal_lt (v : Nat) (hv : v < 1114112) :
    ∀ x ∈ utf8EncodeVal v, x < 256 := by
  unfold utf8EncodeVal
  by_cases h1 : v < 128
  · rw [if_pos h1]; intro x hx; simp at hx; omega
  rw [if_neg h1]
  by_cases h2 : v < 2048
  · rw [if_pos h2]; intro x hx; simp at hx; rcases hx with h | h <;> omega
  rw [if_neg h2]
  by_cases h3 : v < 65536
  · rw [if_pos h3]; intro x hx; simp at hx; rcases hx with h | h | h <;> omega
  rw [if_neg h3]
  intro x hx; simp at hx; rcases hx with h | h | h | h <;> omega

theorem char_toNat_lt (c : Char) : c.toNat < 1114112 := by
  have h : c.val.toNat < 55296 ∨ (57343 < c.val.toNat ∧ c.val.toNat < 1114112) :=
    c.valid
  show c.val.toNat < 1114112
  omega

theorem utf8EncodeVals_lt (vs : List Nat) (hv : ∀ v ∈ vs, v < 1114112) :
    ∀ x ∈ utf8EncodeVals vs, x < 256 := by
  induction vs with
  | nil => simp [utf8EncodeVals]
  | cons v vs ih =>
    intro x hx
    unfold utf8EncodeVals at hx
    simp only [List.map_cons, List.flatten_cons, List.mem_append] at hx
    rcases hx with h | h
    · exact utf8EncodeVal_lt v (hv v (by simp)) x h
    · exact ih (fun w hw => hv w (by simp [hw])) x h

theorem utf8Encode_lt (s : String) : ∀ x ∈ utf8Encode s, x < 256 := by
  unfold utf8Encode
  refine utf8EncodeVals_lt _ ?_
  intro v hv
  simp only [List.mem_map] at hv
  obtain ⟨c, _, hc⟩ := hv
  exact hc ▸ char_toNat_lt c

theorem utf8EncodeVal_ne_nil (v : Nat) : utf8EncodeVal v ≠ [] := by
  unfold utf8EncodeVal
  by_cases h1 : v < 128
  · rw [if_pos h1]; simp
  rw [if_neg h1]
  by_cases h2 : v < 2048
  · rw [if_pos h2]; simp
  rw [if_neg h2]
  by_cases h3 : v < 65536
  · rw [if_pos h3]; simp
  rw [if_neg h3]; simp

theorem utf8DecodeOne_encode (v : Nat) (hv : v < 1114112) (rest : List Nat) :
    utf8DecodeOne (utf8EncodeVal v ++ rest) = some (v, rest) := by
  unfold utf8EncodeVal
  by_cases h1 : v < 128
  · rw [if_pos h1]
    show utf8DecodeOne (v :: rest) = _
    unfold utf8DecodeOne
    dsimp only
    rw [if_pos h1]
  rw [if_neg h1]
  by_cases h2 : v < 2048
  · rw [if_pos h2]
    show utf8DecodeOne ((192 + v / 64) :: (128 + v % 64) :: rest) = _
    unfold utf8DecodeOne
    dsimp only
    rw [if_neg (by omega), if_neg (by omega), if_pos (by omega)]
    rw [if_pos (by exact ⟨by omega, by omega⟩)]
    have hval : (192 + v / 64 - 192) * 64 + (128 + v % 64 - 128) = v := by omega
    rw [hval]
  rw [if_neg h2]
  by_cases h3 : v < 65536
  · rw [if_pos h3]
    show utf8DecodeOne ((224 + v / 4096) :: (128 + v / 64 % 64) :: (128 + v % 64) :: rest) = _
    unfold utf8DecodeOne
    dsimp only
    rw [if_neg (by omega), if_neg (by omega), if_neg (by omega), if_pos (by omega)]
    rw [if_pos (by exact ⟨by omega, by omega, by omega, by omega⟩)]
    have hval : (224 + v / 4096 - 224) * 4096 + (128 + v / 64 % 64 - 128) * 64 +
        (128 + v % 64 - 128) = v := by omega
    rw [hval]
  rw [if_neg h3]
  show utf8DecodeOne ((240 + v / 262144) :: (128 + v / 4096 % 64) ::
    (128 + v / 64 % 64) :: (128 + v % 64) :: rest) = _
  unfold utf8DecodeOne
  dsimp only
  rw [if_neg (by omega), if_neg (by omega), if_neg (by omega), if_neg (by omega),
    if_pos (by omega)]
  rw [if_pos (by exact ⟨by omega, by omega, by omega, by omega, by omega, by omega⟩)]
  have hval : (240 + v / 262144 - 240) * 262144 + (128 + v / 4096 % 64 - 128) * 4096 +
      (128 + v / 64 % 64 - 128) * 64 + (128 + v % 64 - 128) = v := by omega
  rw [hval]

theorem utf8DecodeGoL_encodeVals (vs : List Nat) :
    ∀ fuel, vs.length ≤ fuel → (∀ v ∈ vs, v < 1114112) →
      utf8DecodeGoL fuel (utf8EncodeVals vs) = vs := by
  induction vs with
  | nil =>
    intro fuel _ _
    cases fuel with
    | zero => rfl
    | succ f => simp [utf8EncodeVals, utf8DecodeGoL]
  | cons v vs ih =>
    intro fuel hfuel hv
    cases fuel with
    | zero => simp at hfuel
    | succ f =>
      have henc : utf8EncodeVals (v :: vs) = utf8EncodeVal v ++ utf8EncodeVals vs := by
        unfold utf8EncodeVals
        simp [List.map_cons, List.flatten_cons]
      rw [henc, utf8DecodeGoL]
      rw [if_neg (by
        intro hc
        exact utf8EncodeVal_ne_nil v (List.append_eq_nil.mp hc).1)]
      rw [utf8DecodeOne_encode v (hv v (by simp))]
      dsimp only
      rw [ih f (by simpa using hfuel) (fun x hx => hv x (by simp [hx]))]

theorem utf8EncodeVals_length_ge (vs : List Nat) :
    vs.length ≤ (utf8EncodeVals vs).length := by
  induction vs with
  | nil => simp [utf8EncodeVals]
  | cons v vs ih =>
    unfold utf8EncodeVals at *
    simp only [List.map_cons, List.flatten_cons, List.length_append, List.length_cons]
    have h := utf8EncodeVal_ne_nil v
    have hpos : 0 < (utf8EncodeVal v).length := List.length_pos.mpr h
    omega

theorem utf8ToString_encode (s : String) : utf8ToString (utf8Encode s) = s := by
  unfold utf8ToString utf8Encode
  rw [utf8DecodeGoL_encodeVals (s.data.map Char.toNat) _
    (by simpa using utf8EncodeVals_length_ge (s.data.map Char.toNat))
    (by intro v hv; simp only [List.mem_map] at hv; obtain ⟨c, _, hc⟩ := hv
        exact hc ▸ char_toNat_lt c)]
  show String.mk ((s.data.map Char.toNat).map Char.ofNat) = s
  rw [List.map_map]
  have hmap : s.data.map (Char.ofNat ∘ Char.toNat) = s.data := by
    simp [Function.comp_def, Char.ofNat_toNat]
  rw [hmap]

/-! ## SHA-256 (Node `crypto.pbkdf2Sync(_, _, _, _, 'sha256')` digest)

FIPS 180-4.  Words are `Nat` values kept below `2^32` by explicit truncation
at every word-producing operation.  The round constants are computed from
their definition (fractional bits of the cube / square roots of the first
primes) rather than transcribed. -/

def add32 (a b : Nat) : Nat := (a + b) % 4294967296

def xor32 (a b : Nat) : Nat := (a ^^^ b) % 4294967296

def rotr32 (n w : Nat) : Nat := ((w >>> n) ||| (w <<< (32 - n))) % 4294967296

/-- Big-endian byte serialisation of `n` to exactly `k` bytes. -/
def natToBytesBE : Nat → Nat → List Nat
  | 0, _ => []
  | k + 1, n => natToBytesBE k (n / 256) ++ [n % 256]

theorem natToBytesBE_length (k n : Nat) : (natToBytesBE k n).length = k := by
  induction k generalizing n with
  | zero => rfl
  | succ k ih => simp [natToBytesBE, ih]

theorem natToBytesBE_lt (k n : Nat) : ∀ x ∈ natToBytesBE k n, x < 256 := by
  induction k generalizing n with
  | zero => simp [natToBytesBE]
  | succ k ih =>
    intro x hx
    simp only [natToBytesBE, List.mem_append, List.mem_singleton] at hx
    rcases hx with h | h
    · exact ih _ x h
    · subst h; exact Nat.mod_lt _ (by norm_num)

/-- Big-endian interpretation of a byte list. -/
def bytesToNatBE (bs : List Nat) : Nat := bs.foldl (fun acc b => acc * 256 + b % 256) 0

/-- The first 64 primes, source of the SHA-256 constants. -/
def primes64 : List Nat :=
  [2, 3, 5, 7, 11, 13, 17, 19, 23, 29, 31, 37, 41, 43, 47, 53,
   59, 61, 67, 71, 73, 79, 83, 89, 97, 101, 103, 107, 109, 113, 127, 131,
   137, 139, 149, 151, 157, 163, 167, 173, 179, 181, 191, 193, 197, 199, 211, 223,
   227, 229, 233, 239, 241, 251, 257, 263, 269, 271, 277, 281, 283, 293, 307, 311]

/-- Integer cube root by bounded binary search (the fuel of 128 exceeds the
bit length of every input used). -/
def icbrtGo (n : Nat) : Nat → Nat → Nat → Nat
  | 0, lo, _ => lo
  | fuel + 1, lo, hi =>
    if hi ≤ lo then lo
    else
      let mid := (lo + hi + 1) / 2
      if mid * mid * mid ≤ n then icbrtGo n fuel mid hi
      else icbrtGo n fuel lo (mid - 1)

def icbrt (n : Nat) : Nat := icbrtGo n 128 0 n

/-- K constants: first 32 fractional bits of the cube roots of the primes. -/
def shaK : List Nat := primes64.map (fun p => icbrt (p * 2 ^ 96) % 4294967296)

/-- Initial hash value: first 32 fractional bits of the square roots of the
first 8 primes. -/
def shaH0 : List Nat := (primes64.take 8).map (fun p => Nat.sqrt (p * 2 ^ 64) % 4294967296)

/-- Merkle–Damgård padding: `0x80`, zeros, then the 64-bit message bit length. -/
def shaPad (msg : List Nat) : List Nat :=
  msg ++ [128] ++ List.replicate ((64 - (msg.length + 9) % 64) % 64) 0 ++
    natToBytesBE 8 (msg.length * 8 % 2 ^ 64)

/-- Split a byte list into chunks of `k + 1` bytes (the successor guarantees
progress). -/
def chunksOf (k : Nat) : List Nat → List (List Nat)
  | [] => []
  | b :: rest => ((b :: rest).take (k + 1)) :: chunksOf k ((b :: rest).drop (k + 1))
  termination_by l => l.length
  decreasing_by simp [List.length_drop]; omega

/-- Word `i` of a 64-byte block. -/
def blockWord (block : List Nat) (i : Nat) : Nat :=
  block.getD (4 * i) 0 % 256 * 16777216 + block.getD (4 * i + 1) 0 % 256 * 65536 +
    block.getD (4 * i + 2) 0 % 256 * 256 + block.getD (4 * i + 3) 0 % 256

/-- The message schedule `W_t`. -/
def shaW (block : List Nat) : Nat → Nat
  | t =>
    if t < 16 then blockWord block t
    else
      let s0 := xor32 (xor32 (rotr32 7 (shaW block (t - 15))) (rotr32 18 (shaW block (t - 15))))
        (shaW block (t - 15) >>> 3)
      let s1 := xor32 (xor32 (rotr32 17 (shaW block (t - 2))) (rotr32 19 (shaW block (t - 2))))
        (shaW block (t - 2) >>> 10)
      add32 (add32 (shaW block (t - 16)) s0) (add32 (shaW block (t - 7)) s1)
  termination_by t => t
  decreasing_by all_goals omega

structure ShaState where
  a : Nat
  b : Nat
  c : Nat
  d : Nat
  e : Nat
  f : Nat
  g : Nat
  hh : Nat

def shaRound (k w : Nat) (s : ShaState) : ShaState :=
  let bigS1 := xor32 (xor32 (rotr32 6 s.e) (rotr32 11 s.e)) (rotr32 25 s.e)
  let ch := xor32 (s.e &&& s.f) ((s.e ^^^ 4294967295) &&& s.g)
  let temp1 := add32 (add32 (add32 s.hh bigS1) ch) (add32 k w)
  let bigS0 := xor32 (xor32 (rotr32 2 s.a) (rotr32 13 s.a)) (rotr32 22 s.a)
  let maj := xor32 (xor32 (s.a &&& s.b) (s.a &&& s.c)) (s.b &&& s.c)
  let temp2 := add32 bigS0 maj
  ⟨add32 temp1 temp2, s.a, s.b, s.c, add32 s.d temp1, s.e, s.f, s.g⟩

def shaCompress (st : ShaState) (block : List Nat) : ShaState :=
  let fin := (List.range 64).foldl (fun s t => shaRound (shaK.getD t 0) (shaW block t) s) st
  ⟨add32 st.a fin.a, add32 st.b fin.b, add32 st.c fin.c, add32 st.d fin.d,
    add32 st.e fin.e, add32 st.f fin.f, add32 st.g fin.g, add32 st.hh fin.hh⟩

/-- SHA-256 digest of a byte list. -/
def sha256 (msg : List Nat) : List Nat :=
  let init : ShaState :=
    ⟨shaH0.getD 0 0, shaH0.getD 1 0, shaH0.getD 2 0, shaH0.getD 3 0,
      shaH0.getD 4 0, shaH0.getD 5 0, shaH0.getD 6 0, shaH0.getD 7 0⟩
  let fin := (chunksOf 63 (shaPad msg)).foldl shaCompress init
  natToBytesBE 4 fin.a ++ natToBytesBE 4 fin.b ++ natToBytesBE 4 fin.c ++
    natToBytesBE 4 fin.d ++ natToBytesBE 4 fin.e ++ natToBytesBE 4 fin.f ++
    natToBytesBE 4 fin.g ++ natToBytesBE 4 fin.hh

theorem sha256_length (msg : List Nat) : (sha256 msg).length = 32 := by
  unfold sha256
  simp [natToBytesBE_length]

theorem sha256_lt (msg : List Nat) : ∀ x ∈ sha256 msg, x < 256 := by
  unfold sha256
  intro x hx
  simp only [List.mem_append] at hx
  rcases hx with ((((((h | h) | h) | h) | h) | h) | h) | h <;> exact natToBytesBE_lt _ _ x h

/-! ## HMAC-SHA-256 and PBKDF2 (RFC 2104 / RFC 2898) -/

def hmacSha256 (key msg : List Nat) : List Nat :=
  let k0 := if 64 < key.length then sha256 key else key
  let kp := k0 ++ List.replicate (64 - k0.length) 0
  sha256 ((kp.map (fun b => bxor b 92)) ++ sha256 ((kp.map (fun b => bxor b 54)) ++ msg))

theorem hmacSha256_length (key msg : List Nat) : (hmacSha256 key msg).length = 32 :=
  sha256_length _

theorem hmacSha256_lt (key msg : List Nat) : ∀ x ∈ hmacSha256 key msg, x < 256 :=
  sha256_lt _

/-- The xor-accumulation loop of PBKDF2's `F`: `j` further PRF iterations. -/
def pbkdf2Go (pw : List Nat) : Nat → List Nat → List Nat → List Nat
  | 0, _, acc => acc
  | j + 1, u, acc =>
    let u2 := hmacSha256 pw u
    pbkdf2Go pw j u2 (List.zipWith bxor acc u2)

/-- PBKDF2 block function `F(P, S, c, i)`. -/
def pbkdf2F (pw salt : List Nat) (iters blockIx : Nat) : List Nat :=
  let u1 := hmacSha256 pw (salt ++ natToBytesBE 4 blockIx)
  pbkdf2Go pw (iters - 1) u1 u1

/-- PBKDF2 with HMAC-SHA-256 (`crypto.pbkdf2Sync(pw, salt, iters, dkLen, 'sha256')`). -/
def pbkdf2HmacSha256 (pw salt : List Nat) (iters dkLen : Nat) : List Nat :=
  (((List.range ((dkLen + 31) / 32)).map (fun i => pbkdf2F pw salt iters (i + 1))).flatten).take
    dkLen

theorem pbkdf2Go_length (pw : List Nat) (j : Nat) (u acc : List Nat)
    (hacc : acc.length = 32) : (pbkdf2Go pw j u acc).length = 32 := by
  induction j generalizing u acc with
  | zero => simpa [pbkdf2Go] using hacc
  | succ j ih =>
    rw [pbkdf2Go]
    exact ih _ _ (by rw [List.length_zipWith, hmacSha256_length]; omega)

theorem pbkdf2F_length (pw salt : List Nat) (iters blockIx : Nat) :
    (pbkdf2F pw salt iters blockIx).length = 32 :=
  pbkdf2Go_length _ _ _ _ (hmacSha256_length _ _)

theorem pbkdf2HmacSha256_length_32 (pw salt : List Nat) (iters : Nat) :
    (pbkdf2HmacSha256 pw salt iters 32).length = 32 := by
  unfold pbkdf2HmacSha256
  rw [List.length_take]
  have h1 : (32 + 31) / 32 = 1 := by norm_num
  rw [h1]
  rw [show List.range 1 = [0] from rfl]
  simp [pbkdf2F_length]

/-! ## AES-256 (FIPS 197), forward cipher only

GCM is counter mode plus GHASH, so only the forward block transformation is
ever required.  The state is a 16-byte list in column-major order.  The S-box
is computed from its definition: the affine transform of the multiplicative
inverse in GF(2^8). -/

/-- Multiplication by `x` in GF(2^8) modulo `x^8 + x^4 + x^3 + x + 1`. -/
def xtime (a : Nat) : Nat := if a < 128 then a * 2 else a * 2 ^^^ 283

/-- GF(2^8) multiplication (Russian-peasant over 8 bits). -/
def gfMul (a b : Nat) : Nat :=
  (((List.range 8).foldl
    (fun acc _ =>
      let z := acc.1
      let x := acc.2.1
      let y := acc.2.2
      (if y % 2 = 1 then z ^^^ x else z, xtime x, y / 2))
    ((0 : Nat), a % 256, b % 256))).1

def gfPow (a : Nat) : Nat → Nat
  | 0 => 1
  | n + 1 => gfMul a (gfPow a n)

/-- Multiplicative inverse in GF(2^8) via `a^254`; zero maps to zero. -/
def gfInv (a : Nat) : Nat := if a % 256 = 0 then 0 else gfPow a 254

def rotl8 (k y : Nat) : Nat := ((y <<< k) ||| (y >>> (8 - k))) % 256

/-- The AES S-box: affine transform of the GF(2^8) inverse. -/
def sbox (a : Nat) : Nat :=
  let y := gfInv a
  ((y ^^^ rotl8 1 y) ^^^ (rotl8 2 y ^^^ rotl8 3 y)) ^^^ (rotl8 4 y ^^^ 99)

def subWord (w : List Nat) : List Nat :=
  [sbox (w.getD 0 0), sbox (w.getD 1 0), sbox (w.getD 2 0), sbox (w.getD 3 0)]

def rotWord (w : List Nat) : List Nat :=
  [w.getD 1 0, w.getD 2 0, w.getD 3 0, w.getD 0 0]

def xorWord (a b : List Nat) : List Nat :=
  [bxor (a.getD 0 0) (b.getD 0 0), bxor (a.getD 1 0) (b.getD 1 0),
   bxor (a.getD 2 0) (b.getD 2 0), bxor (a.getD 3 0) (b.getD 3 0)]

/-- AES-256 key schedule, word `i` (Nk = 8, 60 words in total). -/
def aesWord (key : List Nat) : Nat → List Nat
  | i =>
    if i < 8 then
      [key.getD (4 * i) 0 % 256, key.getD (4 * i + 1) 0 % 256,
       key.getD (4 * i + 2) 0 % 256, key.getD (4 * i + 3) 0 % 256]
    else
      let prev := aesWord key (i - 1)
      let temp :=
        if i % 8 = 0 then xorWord (subWord (rotWord prev)) [gfPow 2 (i / 8 - 1), 0, 0, 0]
        else if i % 8 = 4 then subWord prev
        else prev
      xorWord (aesWord key (i - 8)) temp
  termination_by i => i
  decreasing_by all_goals omega

/-- Round key `r` (16 bytes). -/
def roundKey (key : List Nat) (r : Nat) : List Nat :=
  aesWord key (4 * r) ++ aesWord key (4 * r + 1) ++ aesWord key (4 * r + 2) ++
    aesWord key (4 * r + 3)

def subBytes (s : List Nat) : List Nat := s.map sbox

def shiftRows (s : List Nat) : List Nat :=
  [s.getD 0 0, s.getD 5 0, s.getD 10 0, s.getD 15 0,
   s.getD 4 0, s.getD 9 0, s.getD 14 0, s.getD 3 0,
   s.getD 8 0, s.getD 13 0, s.getD 2 0, s.getD 7 0,
   s.getD 12 0, s.getD 1 0, s.getD 6 0, s.getD 11 0]

def mixOne (a b c d : Nat) : Nat := (gfMul 2 a ^^^ gfMul 3 b) ^^^ (c ^^^ d)

def mixColumn (a b c d : Nat) : List Nat :=
  [mixOne a b c d, mixOne b c d a, mixOne c d a b, mixOne d a b c]

def mixColumns (s : List Nat) : List Nat :=
  mixColumn (s.getD 0 0) (s.getD 1 0) (s.getD 2 0) (s.getD 3 0) ++
  mixColumn (s.getD 4 0) (s.getD 5 0) (s.getD 6 0) (s.getD 7 0) ++
  mixColumn (s.getD 8 0) (s.getD 9 0) (s.getD 10 0) (s.getD 11 0) ++
  mixColumn (s.getD 12 0) (s.getD 13 0) (s.getD 14 0) (s.getD 15 0)

def addRoundKey (s rk : List Nat) : List Nat := List.zipWith bxor s rk

def aesRound (rk s : List Nat) : List Nat := addRoundKey (mixColumns (shiftRows (subBytes s))) rk

/-- The AES-256 forward block transformation (14 rounds). -/
def aes256Encrypt (key block : List Nat) : List Nat :=
  let s0 := addRoundKey block (roundKey key 0)
  let sN := (List.range 13).foldl (fun s r => aesRound (roundKey key (r + 1)) s) s0
  addRoundKey (shiftRows (subBytes sN)) (roundKey key 14)

theorem aesWord_length (key : List Nat) (i : Nat) : (aesWord key i).length = 4 := by
  rw [aesWord]
  by_cases h : i < 8
  · rw [if_pos h]; rfl
  · rw [if_neg h]
    simp only [xorWord, List.length_cons, List.length_nil]

theorem roundKey_length (key : List Nat) (r : Nat) : (roundKey key r).length = 16 := by
  unfold roundKey
  simp [aesWord_length]

theorem shiftRows_length (s : List Nat) : (shiftRows s).length = 16 := rfl

theorem aes256Encrypt_length (key block : List Nat) :
    (aes256Encrypt key block).length = 16 := by
  unfold aes256Encrypt addRoundKey
  rw [List.length_zipWith, shiftRows_length, roundKey_length]
  omega

theorem aes256Encrypt_lt (key block : List Nat) :
    ∀ x ∈ aes256Encrypt key block, x < 256 := by
  unfold aes256Encrypt addRoundKey
  exact mem_zipWith_bxor_lt _ _

/-! ## GCM mode (NIST SP 800-38D) over the AES-256 block cipher

128-bit blocks are represented as big-endian `Nat` values below `2^128`;
GCM bit `i` of a block is `Nat` bit `127 - i`. -/

/-- GF(2^128) multiplication with the GCM reduction polynomial
`R = 11100001 || 0^120`. -/
def gf128Mul (x y : Nat) : Nat :=
  (((List.range 128).foldl
    (fun zv i =>
      let z := zv.1
      let v := zv.2
      (if x.testBit (127 - i) then z ^^^ v else z,
       if v.testBit 0 then (v >>> 1) ^^^ (225 * 2 ^ 120) else v >>> 1))
    ((0 : Nat), y % 2 ^ 128))).1

/-- GHASH over a list of 128-bit blocks. -/
def ghash (hsub : Nat) (blocks : List Nat) : Nat :=
  blocks.foldl (fun y x => gf128Mul (y ^^^ x) hsub) 0

/-- Pad a byte string to full blocks and append the GCM length block (the
64-bit AAD bit length, always zero here, and the 64-bit data bit length). -/
def ghashBlocks (data : List Nat) : List Nat :=
  (chunksOf 15 data).map (fun c => bytesToNatBE (c ++ List.replicate (16 - c.length) 0)) ++
    [data.length * 8 % 2 ^ 64]

/-- The hash subkey `H = E(K, 0^128)`. -/
def gcmHsub (key : List Nat) : Nat := bytesToNatBE (aes256Encrypt key (List.replicate 16 0))

/-- The pre-counter block: `IV || 0^31 || 1` for 12-byte IVs, `GHASH_H`
applied to the padded IV otherwise. -/
def gcmJ0 (key iv : List Nat) : Nat :=
  if iv.length = 12 then bytesToNatBE iv * 2 ^ 32 + 1
  else ghash (gcmHsub key)
    ((chunksOf 15 iv).map (fun c => bytesToNatBE (c ++ List.replicate (16 - c.length) 0)) ++
      [iv.length * 8 % 2 ^ 64])

/-- Increment the low 32 bits of a counter block. -/
def inc32 (n : Nat) : Nat := n / 2 ^ 32 * 2 ^ 32 + (n % 2 ^ 32 + 1) % 2 ^ 32

/-- The CTR keystream: blocks `E(K, inc32^(i+1)(J0))`, truncated by `zipWith`
at the data length. -/
def gcmKeystream (key : List Nat) (j0 n : Nat) : List Nat :=
  (((List.range ((n + 15) / 16)).map
    (fun i => aes256Encrypt key (natToBytesBE 16 (inc32^[i + 1] j0))))).flatten

/-- The 16-byte authentication tag `E(K, J0) xor GHASH_H(C || len)`. -/
def gcmTag (key : List Nat) (j0 : Nat) (ct : List Nat) : List Nat :=
  List.zipWith bxor (aes256Encrypt key (natToBytesBE 16 j0))
    (natToBytesBE 16 (ghash (gcmHsub key) (ghashBlocks ct)))

/-- GCM encryption: ciphertext and tag. -/
def gcmEncrypt (key iv pt : List Nat) : List Nat × List Nat :=
  let j0 := gcmJ0 key iv
  let ct := List.zipWith bxor pt (gcmKeystream key j0 pt.length)
  (ct, gcmTag key j0 ct)

/-- GCM decryption: candidate plaintext and the tag recomputed over the
ciphertext (the caller compares it with the transmitted tag). -/
def gcmDecrypt (key iv ct : List Nat) : List Nat × List Nat :=
  let j0 := gcmJ0 key iv
  (List.zipWith bxor ct (gcmKeystream key j0 ct.length), gcmTag key j0 ct)

theorem flatten_map_range_length (f : Nat → List Nat) (hf : ∀ i, (f i).length = 16) :
    ∀ m, (((List.range m).map f).flatten).length = 16 * m := by
  intro m
  induction m with
  | zero => simp
  | succ m ih =>
    rw [List.range_succ]
    simp only [List.map_append, List.flatten_append, List.length_append, ih,
      List.map_cons, List.map_nil, List.flatten_cons, List.flatten_nil,
      List.append_nil, hf]
    omega

theorem gcmKeystream_length (key : List Nat) (j0 n : Nat) :
    (gcmKeystream key j0 n).length = 16 * ((n + 15) / 16) :=
  flatten_map_range_length _ (fun _ => aes256Encrypt_length _ _) _

theorem gcmKeystream_length_ge (key : List Nat) (j0 n : Nat) :
    n ≤ (gcmKeystream key j0 n).length := by
  rw [gcmKeystream_length]; omega

theorem gcmKeystream_lt (key : List Nat) (j0 n : Nat) :
    ∀ x ∈ gcmKeystream key j0 n, x < 256 := by
  unfold gcmKeystream
  intro x hx
  simp only [List.mem_flatten, List.mem_map] at hx
  obtain ⟨l, ⟨⟨i, _, hi⟩, hxl⟩⟩ := hx
  exact aes256Encrypt_lt _ _ x (hi ▸ hxl)

theorem gcmTag_length (key : List Nat) (j0 : Nat) (ct : List Nat) :
    (gcmTag key j0 ct).length = 16 := by
  unfold gcmTag
  rw [List.length_zipWith, aes256Encrypt_length, natToBytesBE_length]
  omega

theorem gcmTag_lt (key : List Nat) (j0 : Nat) (ct : List Nat) :
    ∀ x ∈ gcmTag key j0 ct, x < 256 := by
  unfold gcmTag
  exact mem_zipWith_bxor_lt _ _

theorem gcmEncrypt_ct_length (key iv pt : List Nat) :
    (gcmEncrypt key iv pt).1.length = pt.length := by
  unfold gcmEncrypt
  exact length_zipWith_bxor_of_le _ _ (gcmKeystream_length_ge _ _ _)

theorem gcmEncrypt_ct_lt (key iv pt : List Nat) :
    ∀ x ∈ (gcmEncrypt key iv pt).1, x < 256 := by
  unfold gcmEncrypt
  exact mem_zipWith_bxor_lt _ _

/-- GCM round-trip: decrypting the produced ciphertext regenerates the same
keystream and the same tag, so the plaintext and tag are recovered exactly. -/
theorem gcm_roundtrip (key iv pt : List Nat) (hpt : ∀ x ∈ pt, x < 256) :
    gcmDecrypt key iv (gcmEncrypt key iv pt).1 = (pt, (gcmEncrypt key iv pt).2) := by
  unfold gcmEncrypt gcmDecrypt
  dsimp only
  rw [length_zipWith_bxor_of_le _ _ (gcmKeystream_length_ge key (gcmJ0 key iv) pt.length)]
  rw [zipWith_bxor_involution pt _ (gcmKeystream_length_ge key (gcmJ0 key iv) pt.length)
    hpt (gcmKeystream_lt key (gcmJ0 key iv) pt.length)]

/-! ## `crypto.ts`: the AEAD codec -/

def PBKDF2_ITERATIONS : Nat := 100000

def SALT_LENGTH : Nat := 16

def IV_LENGTH : Nat := 12

def KEY_LENGTH : Nat := 32

/-- `deriveKey(passphrase, salt)`: PBKDF2-HMAC-SHA-256 of the passphrase's
UTF-8 bytes, `PBKDF2_ITERATIONS` iterations, `KEY_LENGTH` output bytes. -/
def deriveKey (passphrase : String) (salt : List Nat) : List Nat :=
  pbkdf2HmacSha256 (utf8Encode passphrase) salt PBKDF2_ITERATIONS KEY_LENGTH

theorem deriveKey_length (passphrase : String) (salt : List Nat) :
    (deriveKey passphrase salt).length = 32 :=
  pbkdf2HmacSha256_length_32 _ _ _

/-- The record returned by `encryptContent`. -/
structure EncryptedPayload where
  encrypted : String
  salt : String
  iv : String
deriving DecidableEq

/-- `encryptContent(content, passphrase)`.  The two `crypto.randomBytes` draws
(16 salt bytes, 12 IV bytes) are passed in as the `saltR` / `ivR` arguments;
`randomBytes(n)` guarantees `n` bytes, stated as hypotheses where needed. -/
def encryptContent (content passphrase : String) (saltR ivR : List Nat) :
    EncryptedPayload :=
  let key := deriveKey passphrase saltR
  let enc := gcmEncrypt key ivR (utf8Encode content)
  { encrypted := b64encode (enc.1 ++ enc.2)
    salt := b64encode saltR
    iv := b64encode ivR }

inductive DecryptError
  | emptyIv
  | invalidTagLength
  | authFailed
deriving DecidableEq

/-- `decryptContent(encryptedBase64, passphrase, saltBase64, ivBase64)`.

Mirrors the source line by line: base64-decode the three fields, derive the
key from whatever salt resulted (no length check), split the last 16 bytes
off as the tag (`slice(-16)` / `slice(0, -16)`), then AES-256-GCM decrypt.
`createDecipheriv` throws on an empty IV; `setAuthTag` (GCM, no
`authTagLength` option) accepts the NIST SP 800-38D tag lengths 4, 8 and
12-16 bytes and rejects every other length; `final()` throws when the
transmitted tag differs from the recomputed tag truncated to the transmitted
length.  These exceptions are modelled as `Except.error`.  On success
`toString('utf8')` is total and never throws. -/
def decryptContent (encryptedBase64 passphrase saltBase64 ivBase64 : String) :
    Except DecryptError String :=
  let encryptedWithTag := b64decode encryptedBase64
  let salt := b64decode saltBase64
  let iv := b64decode ivBase64
  let key := deriveKey passphrase salt
  let authTag := encryptedWithTag.drop (encryptedWithTag.length - 16)
  let encrypted := encryptedWithTag.take (encryptedWithTag.length - 16)
  if iv.length = 0 then .error .emptyIv
  else if authTag.length = 4 ∨ authTag.length = 8 ∨
      (12 ≤ authTag.length ∧ authTag.length ≤ 16) then
    let dec := gcmDecrypt key iv encrypted
    if authTag = dec.2.take authTag.length then .ok (utf8ToString dec.1)
    else .error .authFailed
  else .error .invalidTagLength

/-- Core round-trip: unsealing a blob produced by `encryptContent` with the
same passphrase recovers the plaintext, for any salt whose bytes came from a
byte source and any nonempty IV (in particular the 16/12-byte draws of
`randomBytes`).  No constraint on the salt length is required: `deriveKey`
accepts any salt. -/
theorem decryptContent_encryptContent (content passphrase : String)
    (saltR ivR : List Nat) (hsalt : ∀ x ∈ saltR, x < 256)
    (hiv : ∀ x ∈ ivR, x < 256) (hivne : ivR ≠ []) :
    decryptContent (encryptContent content passphrase saltR ivR).encrypted
      passphrase (encryptContent content passphrase saltR ivR).salt
      (encryptContent content passphrase saltR ivR).iv = .ok content := by
  unfold encryptContent decryptContent
  dsimp only
  have hct := gcmEncrypt_ct_lt (deriveKey passphrase saltR) ivR (utf8Encode content)
  have htag := gcmTag_lt (deriveKey passphrase saltR)
    (gcmJ0 (deriveKey passphrase saltR) ivR)
    (gcmEncrypt (deriveKey passphrase saltR) ivR (utf8Encode content)).1
  have htaglen : (gcmEncrypt (deriveKey passphrase saltR) ivR (utf8Encode content)).2.length
      = 16 := by
    unfold gcmEncrypt
    exact gcmTag_length _ _ _
  have hall : ∀ x ∈ (gcmEncrypt (deriveKey passphrase saltR) ivR (utf8Encode content)).1 ++
      (gcmEncrypt (deriveKey passphrase saltR) ivR (utf8Encode content)).2, x < 256 := by
    intro x hx
    rcases List.mem_append.mp hx with h | h
    · exact hct x h
    · unfold gcmEncrypt at h
      exact htag x h
  rw [b64_roundtrip _ hall, b64_roundtrip _ hsalt, b64_roundtrip _ hiv]
  have hlen : ((gcmEncrypt (deriveKey passphrase saltR) ivR (utf8Encode content)).1 ++
      (gcmEncrypt (deriveKey passphrase saltR) ivR (utf8Encode content)).2).length - 16 =
      (gcmEncrypt (deriveKey passphrase saltR) ivR (utf8Encode content)).1.length := by
    rw [List.length_append, htaglen]
    omega
  rw [hlen, List.take_left, List.drop_left]
  rw [if_neg (by simpa using hivne)]
  rw [if_pos (by rw [htaglen]; omega)]
  have hrt := gcm_roundtrip (deriveKey passphrase saltR) ivR (utf8Encode content)
    (utf8Encode_lt content)
  rw [hrt]
  dsimp only
  rw [List.take_length, if_pos rfl, utf8ToString_encode]

/-! ## `pastesProvider.ts`: the unlock session cache

`PastesProvider.getChildren(element)` for a `PasteItem` is embedded as a pure
step function over the two cache maps, with the remote store
(`api.unlockPaste` / `api.getPaste`) and the passphrase prompt
(`showInputBox`) supplied as an environment, and a log recording every
external invocation.  JavaScript truthiness (`undefined` and `""` are both
falsy) is modelled explicitly. -/

structure PasteFile where
  name : String
  content : String
  language : String
  isMain : Bool
  salt : Option String
  iv : Option String
deriving DecidableEq

structure Paste where
  files : List PasteFile
deriving DecidableEq

/-- The two mutable maps of `PastesProvider`, as association lists with
most-recent-first lookup. -/
structure ProviderState where
  pasteCache : List (String × Paste)
  unlockedPastes : List (String × Paste × String)
deriving DecidableEq

def alookup {α : Type} : List (String × α) → String → Option α
  | [], _ => none
  | (k, v) :: rest, key => if k = key then some v else alookup rest key

/-- `PastesProvider.refresh()`: clears both maps. -/
def refreshProvider (_st : ProviderState) : ProviderState := ⟨[], []⟩

inductive StoreErr
  | accessDenied
  | fault
deriving DecidableEq

structure ProviderEnv where
  promptResult : Option String
  unlockResult : String → String → Except StoreErr Paste
  getPasteResult : String → Except StoreErr Paste

inductive ProviderEvent
  | prompted
  | unlockCalled (pasteId password : String)
  | getPasteCalled (pasteId : String)
deriving DecidableEq

structure FileItemView where
  fileName : String
  content : String
  language : String
  isMain : Bool
  pasteId : String
  fileIndex : Nat
  isEncrypted : Bool
deriving DecidableEq

structure GetChildrenResult where
  state : ProviderState
  items : List FileItemView
  log : List ProviderEvent
deriving DecidableEq

/-- Sentinel substituted for a file body when `decryptContent` throws. -/
def decryptionFailedMarker : String := "[Decryption failed]"

/-- Body shown for one file in the main path: decrypt only when the
passphrase and both metadata fields are (JS-)truthy; on a decryption error
substitute the sentinel; otherwise the body is used verbatim. -/
def decryptedFileContent (passphrase : Option String) (f : PasteFile) : String :=
  match passphrase, f.salt, f.iv with
  | some pw, some s, some i =>
    if pw ≠ "" ∧ s ≠ "" ∧ i ≠ "" then
      match decryptContent f.content pw s i with
      | .ok c => c
      | .error _ => decryptionFailedMarker
    else f.content
  | _, _, _ => f.content

/-- Same per-file rule in the 403-recovery path, whose guard omits the
passphrase check (`if (file.salt && file.iv)`). -/
def decryptedFileContentCatch (password : String) (f : PasteFile) : String :=
  match f.salt, f.iv with
  | some s, some i =>
    if s ≠ "" ∧ i ≠ "" then
      match decryptContent f.content password s i with
      | .ok c => c
      | .error _ => decryptionFailedMarker
    else f.content
  | _, _ => f.content

def mapIdxFrom {α β : Type} (f : Nat → α → β) : Nat → List α → List β
  | _, [] => []
  | n, a :: as => f n a :: mapIdxFrom f (n + 1) as

/-- Materialise the `FileItem` rows from a resolved paste (source lines
`paste.files.map((file, index) => ...)`). -/
def serveFiles (st : ProviderState) (id : String) (isProtected : Bool) (p : Paste) :
    List FileItemView :=
  if p.files.length > 0 then
    let passphrase := (alookup st.unlockedPastes id).map (fun pr => pr.2)
    mapIdxFrom (fun i f =>
      { fileName := f.name, content := decryptedFileContent passphrase f,
        language := f.language, isMain := f.isMain, pasteId := id, fileIndex := i,
        isEncrypted := isProtected }) 0 p.files
  else []

/-- The `catch` block of `getChildren` (only a store fetch failure reaches
it): on a 403 with no existing session, prompt and unlock; in every other
case return an empty result with the state untouched. -/
def getChildrenCatch (st : ProviderState) (env : ProviderEnv) (id : String)
    (err : StoreErr) : GetChildrenResult :=
  if err = .accessDenied ∧ (alookup st.unlockedPastes id).isNone then
    match env.promptResult with
    | some password =>
      if password ≠ "" then
        match env.unlockResult id password with
        | .ok unlockedPaste =>
          let st2 : ProviderState :=
            { st with unlockedPastes := (id, unlockedPaste, password) :: st.unlockedPastes }
          if unlockedPaste.files.length > 0 then
            { state := st2
              items := mapIdxFrom (fun i f =>
                { fileName := f.name, content := decryptedFileContentCatch password f,
                  language := f.language, isMain := f.isMain, pasteId := id,
                  fileIndex := i, isEncrypted := true }) 0 unlockedPaste.files
              log := [.prompted, .unlockCalled id password] }
          else
            { state := st2, items := [], log := [.prompted, .unlockCalled id password] }
        | .error _ =>
          { state := st, items := [], log := [.prompted, .unlockCalled id password] }
      else { state := st, items := [], log := [.prompted] }
    | none => { state := st, items := [], log := [.prompted] }
  else { state := st, items := [], log := [] }

/-- Resolution of the paste payload after the unlock branch: session first
(`unlockedPastes.get(id)?.paste || pasteCache.get(id)`), else a store fetch
that caches on success and falls to the catch block on failure. -/
def getChildrenFetch (st : ProviderState) (env : ProviderEnv) (id : String)
    (isProtected : Bool) (log : List ProviderEvent) : GetChildrenResult :=
  match ((alookup st.unlockedPastes id).map (fun pr => pr.1)).orElse
      (fun _ => alookup st.pasteCache id) with
  | some paste => { state := st, items := serveFiles st id isProtected paste, log := log }
  | none =>
    match env.getPasteResult id with
    | .ok paste =>
      let st2 : ProviderState := { st with pasteCache := (id, paste) :: st.pasteCache }
      { state := st2, items := serveFiles st2 id isProtected paste
        log := log ++ [.getPasteCalled id] }
    | .error e =>
      let r := getChildrenCatch st env id e
      { state := r.state, items := r.items, log := log ++ [.getPasteCalled id] ++ r.log }

/-- `PastesProvider.getChildren` on a `PasteItem` with identifier `id` and
protection flag `isProtected`. -/
def getChildrenPaste (st : ProviderState) (env : ProviderEnv) (id : String)
    (isProtected : Bool) : GetChildrenResult :=
  if isProtected ∧ (alookup st.unlockedPastes id).isNone then
    match env.promptResult with
    | none => { state := st, items := [], log := [.prompted] }
    | some password =>
      if password = "" then { state := st, items := [], log := [.prompted] }
      else
        match env.unlockResult id password with
        | .ok unlockedPaste =>
          let st2 : ProviderState :=
            { st with unlockedPastes := (id, unlockedPaste, password) :: st.unlockedPastes }
          getChildrenFetch st2 env id isProtected [.prompted, .unlockCalled id password]
        | .error _ =>
          { state := st, items := [], log := [.prompted, .unlockCalled id password] }
  else getChildrenFetch st env id isProtected []

theorem mapIdxFrom_length {α β : Type} (f : Nat → α → β) (n : Nat) (l : List α) :
    (mapIdxFrom f n l).length = l.length := by
  induction l generalizing n with
  | nil => rfl
  | cons a as ih => simp [mapIdxFrom, ih]

theorem mapIdxFrom_get {α β : Type} (f : Nat → α → β) (n : Nat) (l : List α)
    (i : Nat) (h : i < l.length) :
    (mapIdxFrom f n l).get ⟨i, by rw [mapIdxFrom_length]; exact h⟩ =
      f (n + i) (l.get ⟨i, h⟩) := by
  induction l generalizing n i with
  | nil => simp at h
  | cons a as ih =>
    cases i with
    | zero => rfl
    | succ j =>
      have hj : j < as.length := by simpa using h
      have := ih (n + 1) j hj
      simpa [mapIdxFrom, Nat.add_assoc, Nat.add_comm 1 j] using this

/-! ## `extension.ts` `createPaste` and `api.ts` payload assembly -/

inductive Visibility
  | pub
  | priv
deriving DecidableEq

inductive EncryptionLevel
  | aes
  | des
  | rc4
deriving DecidableEq

structure CreatePasteOptionsE where
  title : String
  fileName : String
  content : String
  language : String
  visibility : Visibility
  encryptionLevel : Option EncryptionLevel
  isPasswordProtected : Bool
  password : Option String
  salt : Option String
  iv : Option String
deriving DecidableEq

/-- The options object built before the visibility branch
(`content: Buffer.from(content).toString('base64')`). -/
def basePasteOptions (title fileName content language : String) (vis : Visibility) :
    CreatePasteOptionsE :=
  { title := title, fileName := fileName
    content := b64encode (utf8Encode content)
    language := language, visibility := vis, encryptionLevel := none
    isPasswordProtected := false, password := none, salt := none, iv := none }

/-- The options object for the private branch: whatever `algorithm` the user
picked from the quick-pick only lands in `encryptionLevel`; the body is
always sealed by `encryptContent` (AES-256-GCM). -/
def privatePasteOptions (title fileName content language : String)
    (algorithm : EncryptionLevel) (passphrase : String) (saltR ivR : List Nat) :
    CreatePasteOptionsE :=
  let base := basePasteOptions title fileName content language .priv
  let encrypted := encryptContent content passphrase saltR ivR
  { base with
    content := encrypted.encrypted, encryptionLevel := some algorithm,
    isPasswordProtected := true, password := some passphrase,
    salt := some encrypted.salt, iv := some encrypted.iv }

structure ApiFile where
  name : String
  content : String
  language : String
  isMain : Bool
  salt : Option String
  iv : Option String
deriving DecidableEq

structure ApiCreatePastePayload where
  title : String
  files : List ApiFile
  visibility : Visibility
  isPasswordProtected : Bool
  encryptionLevel : Option EncryptionLevel
  password : Option String
deriving DecidableEq

/-- JS truthiness of an optional string: `undefined` and `""` are falsy. -/
def jsTruthyStr : Option String → Bool
  | none => false
  | some s => s != ""

/-- `PastezenAPI.createPaste`: the HTTP request body.  `salt`/`iv` are added
to the file only when both are truthy; `encryptionLevel` and `password` are
included only when truthy. -/
def createPastePayload (o : CreatePasteOptionsE) : ApiCreatePastePayload :=
  let addMeta := jsTruthyStr o.salt && jsTruthyStr o.iv
  { title := o.title
    files := [{ name := o.fileName, content := o.content, language := o.language
                isMain := true
                salt := if addMeta then o.salt else none
                iv := if addMeta then o.iv else none }]
    visibility := o.visibility
    isPasswordProtected := o.isPasswordProtected
    encryptionLevel := o.encryptionLevel
    password := if jsTruthyStr o.password then o.password else none }

/-! ## `extension.ts` `saveToPastezen` -/

structure UpdatePastePayload where
  files : List PasteFile
deriving DecidableEq

/-- The core of `saveToPastezen`: overwrite the indexed file's `content` with
the editor text and send the whole `files` array
(`paste.files[metadata.fileIndex].content = content; updatePaste(id, {files})`).
An out-of-range index dereferences `undefined` and throws (caught by the
surrounding handler), modelled as `none`. -/
def saveToPastezenRequest (paste : Paste) (fileIndex : Nat) (content : String) :
    Option UpdatePastePayload :=
  if hlt : fileIndex < paste.files.length then
    some ⟨paste.files.set fileIndex
      { paste.files.get ⟨fileIndex, hlt⟩ with content := content }⟩
  else none

/-! ## Provider-level helper lemmas -/

def emptyFileView : FileItemView :=
  { fileName := "", content := "", language := "", isMain := false, pasteId := ""
    fileIndex := 0, isEncrypted := false }

def emptyPasteFile : PasteFile :=
  { name := "", content := "", language := "", isMain := false, salt := none, iv := none }

/-- With a session in place, `getChildren` serves from it: no store call, no
prompt, state untouched. -/
theorem getChildrenPaste_session (st : ProviderState) (env : ProviderEnv)
    (id : String) (isProtected : Bool) (P : Paste) (pw : String)
    (hsession : alookup st.unlockedPastes id = some (P, pw)) :
    getChildrenPaste st env id isProtected =
      { state := st, items := serveFiles st id isProtected P, log := [] } := by
  unfold getChildrenPaste
  rw [if_neg (by simp [hsession])]
  unfold getChildrenFetch
  rw [hsession]
  rfl

/-- With no session but a plain cache entry and an unprotected item,
`getChildren` serves from the cache: no store call, no prompt. -/
theorem getChildrenPaste_cacheHit (st : ProviderState) (env : ProviderEnv)
    (id : String) (P : Paste)
    (hnosession : alookup st.unlockedPastes id = none)
    (hcache : alookup st.pasteCache id = some P) :
    getChildrenPaste st env id false =
      { state := st, items := serveFiles st id false P, log := [] } := by
  unfold getChildrenPaste
  rw [if_neg (by simp)]
  unfold getChildrenFetch
  rw [hnosession, hcache]
  rfl

theorem serveFiles_length (st : ProviderState) (id : String) (b : Bool) (P : Paste) :
    (serveFiles st id b P).length = P.files.length := by
  unfold serveFiles
  by_cases h : P.files.length > 0
  · rw [if_pos h, mapIdxFrom_length]
  · rw [if_neg h]
    simp only [List.length_nil]
    omega

theorem serveFiles_getD (st : ProviderState) (id : String) (b : Bool) (P : Paste)
    (i : Nat) (hi : i < P.files.length) :
    (serveFiles st id b P).getD i emptyFileView =
      { fileName := (P.files.get ⟨i, hi⟩).name
        content := decryptedFileContent
          ((alookup st.unlockedPastes id).map (fun pr => pr.2)) (P.files.get ⟨i, hi⟩)
        language := (P.files.get ⟨i, hi⟩).language
        isMain := (P.files.get ⟨i, hi⟩).isMain
        pasteId := id, fileIndex := i, isEncrypted := b } := by
  unfold serveFiles
  rw [if_pos (by omega)]
  have hlen : i < (mapIdxFrom (fun i f =>
      ({ fileName := f.name
         content := decryptedFileContent
           ((alookup st.unlockedPastes id).map (fun pr => pr.2)) f
         language := f.language, isMain := f.isMain, pasteId := id, fileIndex := i
         isEncrypted := b } : FileItemView)) 0 P.files).length := by
    rw [mapIdxFrom_length]; exact hi
  rw [List.getD_eq_getElem?_getD, List.getElem?_eq_getElem hlen]
  have hget := mapIdxFrom_get (fun i f =>
      ({ fileName := f.name
         content := decryptedFileContent
           ((alookup st.unlockedPastes id).map (fun pr => pr.2)) f
         language := f.language, isMain := f.isMain, pasteId := id, fileIndex := i
         isEncrypted := b } : FileItemView)) 0 P.files i hi
  simp only [List.get_eq_getElem] at hget
  simp only [Option.getD_some, hget]
  simp [List.get_eq_getElem]

/-- Every path through the fetch stage keeps the incoming log as a prefix. -/
theorem getChildrenFetch_log (st : ProviderState) (env : ProviderEnv) (id : String)
    (b : Bool) (log0 : List ProviderEvent) :
    ∃ t, (getChildrenFetch st env id b log0).log = log0 ++ t := by
  unfold getChildrenFetch
  split
  · exact ⟨[], by simp⟩
  · split
    · exact ⟨[.getPasteCalled id], rfl⟩
    · rename_i e heq
      refine ⟨[.getPasteCalled id] ++ (getChildrenCatch st env id e).log, ?_⟩
      dsimp only
      rw [List.append_assoc]

/-! ## Claim theorems -/

/-- C1: Round-trip — for every UTF-8 string `x` and passphrase `p`, unsealing
the blob produced by `encryptContent(x, p)` with the same passphrase returns
exactly `x` (`decryptContent(e.encrypted, p, e.salt, e.iv) = ok x`).  The
`randomBytes` draws enter as `saltR`/`ivR` with their guaranteed lengths and
byte ranges as hypotheses. -/
theorem spec_c1_roundtrip (x p : String) (saltR ivR : List Nat)
    (hsaltLen : saltR.length = SALT_LENGTH) (hsalt : ∀ b ∈ saltR, b < 256)
    (hivLen : ivR.length = IV_LENGTH) (hiv : ∀ b ∈ ivR, b < 256) :
    decryptContent (encryptContent x p saltR ivR).encrypted p
      (encryptContent x p saltR ivR).salt (encryptContent x p saltR ivR).iv =
      Except.ok x :=
  decryptContent_encryptContent x p saltR ivR hsalt hiv
    (by intro h; rw [h] at hivLen; simp [IV_LENGTH] at hivLen)

theorem spec_c1_roundtrip_witness :
    (List.replicate 16 0).length = SALT_LENGTH ∧
    (∀ b ∈ List.replicate 16 0, b < 256) ∧
    (List.replicate 12 1).length = IV_LENGTH ∧
    (∀ b ∈ List.replicate 12 1, b < 256) ∧
    decryptContent
      (encryptContent "hello world" "correct-horse" (List.replicate 16 0)
        (List.replicate 12 1)).encrypted "correct-horse"
      (encryptContent "hello world" "correct-horse" (List.replicate 16 0)
        (List.replicate 12 1)).salt
      (encryptContent "hello world" "correct-horse" (List.replicate 16 0)
        (List.replicate 12 1)).iv = Except.ok "hello world" :=
  ⟨by decide, by decide, by decide, by decide,
    spec_c1_roundtrip "hello world" "correct-horse" (List.replicate 16 0)
      (List.replicate 12 1) (by decide) (by decide) (by decide) (by decide)⟩

/-- C2: Key derivation — `deriveKey` is PBKDF2 with HMAC-SHA-256, exactly
100,000 iterations, producing a 32-byte key, for every passphrase and salt;
it is deterministic and its iteration count is the fixed constant
`PBKDF2_ITERATIONS` (the function takes no per-call count). -/
theorem spec_c2_derive_key (p : String) (s : List Nat) :
    (deriveKey p s).length = 32 ∧
    deriveKey p s = pbkdf2HmacSha256 (utf8Encode p) s 100000 32 ∧
    PBKDF2_ITERATIONS = 100000 ∧ KEY_LENGTH = 32 ∧
    (∀ p2 s2, p = p2 → s = s2 → deriveKey p s = deriveKey p2 s2) :=
  ⟨deriveKey_length p s, rfl, rfl, rfl, fun p2 s2 hp hs => hp ▸ hs ▸ rfl⟩

theorem spec_c2_derive_key_witness :
    (deriveKey "pw" [0, 1, 2]).length = 32 ∧
    deriveKey "pw" [0, 1, 2] = pbkdf2HmacSha256 (utf8Encode "pw") [0, 1, 2] 100000 32 ∧
    PBKDF2_ITERATIONS = 100000 ∧ KEY_LENGTH = 32 ∧
    (∀ p2 s2, "pw" = p2 → [0, 1, 2] = s2 → deriveKey "pw" [0, 1, 2] = deriveKey p2 s2) :=
  spec_c2_derive_key "pw" [0, 1, 2]

/-- C3: Seal output structure — the `encrypted` field is the GCM cipher bytes
with the 16-byte tag appended, base64-encoded; `salt` and `iv` are the two
random draws base64-encoded independently; the decoded ciphertext length is
the UTF-8 byte length of the plaintext plus 16, hence at least 16. -/
theorem spec_c3_seal_structure (x p : String) (saltR ivR : List Nat)
    (hsaltLen : saltR.length = SALT_LENGTH) (hsalt : ∀ b ∈ saltR, b < 256)
    (hivLen : ivR.length = IV_LENGTH) (hiv : ∀ b ∈ ivR, b < 256) :
    (encryptContent x p saltR ivR).encrypted =
      b64encode ((gcmEncrypt (deriveKey p saltR) ivR (utf8Encode x)).1 ++
        (gcmEncrypt (deriveKey p saltR) ivR (utf8Encode x)).2) ∧
    (gcmEncrypt (deriveKey p saltR) ivR (utf8Encode x)).2.length = 16 ∧
    (encryptContent x p saltR ivR).salt = b64encode saltR ∧
    (encryptContent x p saltR ivR).iv = b64encode ivR ∧
    (b64decode (encryptContent x p saltR ivR).encrypted).length =
      (utf8Encode x).length + 16 ∧
    16 ≤ (b64decode (encryptContent x p saltR ivR).encrypted).length := by
  have htaglen : (gcmEncrypt (deriveKey p saltR) ivR (utf8Encode x)).2.length = 16 := by
    unfold gcmEncrypt
    exact gcmTag_length _ _ _
  have hall : ∀ b ∈ (gcmEncrypt (deriveKey p saltR) ivR (utf8Encode x)).1 ++
      (gcmEncrypt (deriveKey p saltR) ivR (utf8Encode x)).2, b < 256 := by
    intro b hb
    rcases List.mem_append.mp hb with h | h
    · exact gcmEncrypt_ct_lt _ _ _ b h
    · revert h
      unfold gcmEncrypt
      exact gcmTag_lt _ _ _ b
  have hdec : (b64decode (encryptContent x p saltR ivR).encrypted).length =
      (utf8Encode x).length + 16 := by
    show (b64decode (b64encode _)).length = _
    rw [b64_roundtrip _ hall, List.length_append, gcmEncrypt_ct_length, htaglen]
  exact ⟨rfl, htaglen, rfl, rfl, hdec, by omega⟩

theorem spec_c3_seal_structure_witness :
    (List.replicate 16 3).length = SALT_LENGTH ∧
    (∀ b ∈ List.replicate 16 3, b < 256) ∧
    (List.replicate 12 4).length = IV_LENGTH ∧
    (∀ b ∈ List.replicate 12 4, b < 256) ∧
    (b64decode (encryptContent "ab" "pw" (List.replicate 16 3)
      (List.replicate 12 4)).encrypted).length = (utf8Encode "ab").length + 16 :=
  ⟨by decide, by decide, by decide, by decide,
    (spec_c3_seal_structure "ab" "pw" (List.replicate 16 3) (List.replicate 12 4)
      (by decide) (by decide) (by decide) (by decide)).2.2.2.2.1⟩

/-- C4 counterexample: the claim asserts `decryptContent` fails whenever the
decoded salt is not 16 bytes, but the code never validates the salt length —
a blob built consistently over a 15-byte salt still decrypts to its
plaintext.  (The decoded-salt length here is 15, not 16.) -/
theorem spec_c4_counterexample :
    decryptContent
      (encryptContent "msg" "pw" (List.replicate 15 7) (List.replicate 12 1)).encrypted
      "pw"
      (encryptContent "msg" "pw" (List.replicate 15 7) (List.replicate 12 1)).salt
      (encryptContent "msg" "pw" (List.replicate 15 7) (List.replicate 12 1)).iv =
      Except.ok "msg" ∧
    (b64decode (encryptContent "msg" "pw" (List.replicate 15 7)
      (List.replicate 12 1)).salt).length = 15 :=
  ⟨decryptContent_encryptContent "msg" "pw" (List.replicate 15 7) (List.replicate 12 1)
      (by decide) (by decide) (by decide),
    by
      rw [show (encryptContent "msg" "pw" (List.replicate 15 7)
        (List.replicate 12 1)).salt = b64encode (List.replicate 15 7) from rfl]
      rw [b64_roundtrip _ (by decide)]
      decide⟩

/-- C4 amended: `decryptContent` fails with `DecryptionFailure` (returning no
plaintext) when the decoded nonce is empty, or when the tag slice length is
not one that `setAuthTag` accepts (4, 8 or 12-16 bytes; in particular a
decoded ciphertext field of fewer than 4 bytes always fails), and it returns
a plaintext only when the transmitted tag equals the recomputed GCM tag
truncated to the transmitted length — so tag-verification failure always
yields an error.  The decoded salt and nonce lengths are not otherwise
validated: a consistent blob over a salt of any length still unseals, a
sub-16-byte blob carrying a valid truncated tag decrypts (last conjunct, a
12-byte blob holding the truncated tag over the empty ciphertext), and
base64 decoding is lenient and never fails. -/
theorem spec_c4_amended (encB64 p saltB64 ivB64 : String) :
    ((b64decode ivB64).length = 0 →
      decryptContent encB64 p saltB64 ivB64 = .error .emptyIv) ∧
    ((b64decode ivB64).length ≠ 0 →
      ¬(((b64decode encB64).drop ((b64decode encB64).length - 16)).length = 4 ∨
        ((b64decode encB64).drop ((b64decode encB64).length - 16)).length = 8 ∨
        (12 ≤ ((b64decode encB64).drop ((b64decode encB64).length - 16)).length ∧
          ((b64decode encB64).drop ((b64decode encB64).length - 16)).length ≤ 16)) →
      decryptContent encB64 p saltB64 ivB64 = .error .invalidTagLength) ∧
    (∀ s, decryptContent encB64 p saltB64 ivB64 = .ok s →
      (b64decode encB64).drop ((b64decode encB64).length - 16) =
        ((gcmDecrypt (deriveKey p (b64decode saltB64)) (b64decode ivB64)
          ((b64decode encB64).take ((b64decode encB64).length - 16))).2).take
          ((b64decode encB64).drop ((b64decode encB64).length - 16)).length) ∧
    (∀ (p2 : String) (saltR ivR : List Nat), (∀ b ∈ saltR, b < 256) →
      (∀ b ∈ ivR, b < 256) → ivR ≠ [] →
      decryptContent
          (b64encode (((gcmDecrypt (deriveKey p2 saltR) ivR []).2).take 12)) p2
          (b64encode saltR) (b64encode ivR) = .ok "" ∧
      (b64decode (b64encode (((gcmDecrypt (deriveKey p2 saltR) ivR []).2).take 12))).length
        = 12) := by
  refine ⟨?_, ?_, ?_, ?_⟩
  · intro hiv0
    unfold decryptContent
    rw [if_pos hiv0]
  · intro hivne hnot
    unfold decryptContent
    rw [if_neg hivne, if_neg hnot]
  · intro s hs
    unfold decryptContent at hs
    by_cases h1 : (b64decode ivB64).length = 0
    · rw [if_pos h1] at hs
      simp at hs
    rw [if_neg h1] at hs
    by_cases h2 : ((b64decode encB64).drop ((b64decode encB64).length - 16)).length = 4 ∨
        ((b64decode encB64).drop ((b64decode encB64).length - 16)).length = 8 ∨
        (12 ≤ ((b64decode encB64).drop ((b64decode encB64).length - 16)).length ∧
          ((b64decode encB64).drop ((b64decode encB64).length - 16)).length ≤ 16)
    · rw [if_pos h2] at hs
      dsimp only at hs
      by_cases h3 : (b64decode encB64).drop ((b64decode encB64).length - 16) =
          ((gcmDecrypt (deriveKey p (b64decode saltB64)) (b64decode ivB64)
            ((b64decode encB64).take ((b64decode encB64).length - 16))).2).take
            ((b64decode encB64).drop ((b64decode encB64).length - 16)).length
      · exact h3
      · rw [if_neg h3] at hs
        simp at hs
    · rw [if_neg h2] at hs
      simp at hs
  · intro p2 saltR ivR hsB hiB hne
    have htagbound : ∀ x ∈ (gcmDecrypt (deriveKey p2 saltR) ivR []).2, x < 256 := by
      unfold gcmDecrypt
      exact gcmTag_lt _ _ _
    have htb : ∀ x ∈ ((gcmDecrypt (deriveKey p2 saltR) ivR []).2).take 12, x < 256 :=
      fun x hx => htagbound x (List.mem_of_mem_take hx)
    have htlen : ((gcmDecrypt (deriveKey p2 saltR) ivR []).2).length = 16 := by
      unfold gcmDecrypt
      exact gcmTag_length _ _ _
    have htake12 : (((gcmDecrypt (deriveKey p2 saltR) ivR []).2).take 12).length = 12 := by
      rw [List.length_take, htlen]
      omega
    constructor
    · unfold decryptContent
      rw [b64_roundtrip _ htb, b64_roundtrip _ hsB, b64_roundtrip _ hiB]
      dsimp only
      rw [htake12, show (12 : Nat) - 16 = 0 from rfl, List.drop_zero, List.take_zero,
        htake12]
      rw [if_neg (by simpa using hne)]
      rw [if_pos (by omega)]
      rw [if_pos rfl]
      rfl
    · rw [b64_roundtrip _ htb]
      exact htake12

theorem spec_c4_amended_witness :
    (b64decode (b64encode (List.replicate 12 1))).length ≠ 0 ∧
    ¬(((b64decode "").drop ((b64decode "").length - 16)).length = 4 ∨
      ((b64decode "").drop ((b64decode "").length - 16)).length = 8 ∨
      (12 ≤ ((b64decode "").drop ((b64decode "").length - 16)).length ∧
        ((b64decode "").drop ((b64decode "").length - 16)).length ≤ 16)) ∧
    decryptContent "" "pw" "" (b64encode (List.replicate 12 1)) =
      .error .invalidTagLength ∧
    decryptContent
        (b64encode (((gcmDecrypt (deriveKey "pw" (List.replicate 16 9))
          (List.replicate 12 8) []).2).take 12)) "pw"
        (b64encode (List.replicate 16 9)) (b64encode (List.replicate 12 8)) = .ok "" :=
  ⟨by rw [b64_roundtrip _ (by decide)]; decide,
   by decide,
   (spec_c4_amended "" "pw" "" (b64encode (List.replicate 12 1))).2.1
     (by rw [b64_roundtrip _ (by decide)]; decide) (by decide),
   ((spec_c4_amended "" "pw" "" (b64encode (List.replicate 12 1))).2.2.2 "pw"
     (List.replicate 16 9) (List.replicate 12 8) (by decide) (by decide) (by decide)).1⟩

/-- C5: Per-file decrypt-failure isolation — serving an unlocked paste never
fails as a whole: every file yields a row; a file whose `decryptContent`
throws gets the sentinel `[Decryption failed]` body, while a file sealed
under the session passphrase still decrypts to its original text in the same
call. -/
theorem spec_c5_per_file_isolation
    (st : ProviderState) (env : ProviderEnv) (id : String) (isProtected : Bool)
    (P : Paste) (pw : String)
    (hsession : alookup st.unlockedPastes id = some (P, pw)) (hpw : pw ≠ "")
    (i j : Nat) (hi : i < P.files.length) (hj : j < P.files.length)
    (x nm lg : String) (mn : Bool) (saltR ivR : List Nat)
    (hsaltLen : saltR.length = SALT_LENGTH) (hsalt : ∀ b ∈ saltR, b < 256)
    (hivLen : ivR.length = IV_LENGTH) (hiv : ∀ b ∈ ivR, b < 256)
    (hfi : P.files.get ⟨i, hi⟩ =
      { name := nm, content := (encryptContent x pw saltR ivR).encrypted
        language := lg, isMain := mn
        salt := some ((encryptContent x pw saltR ivR).salt)
        iv := some ((encryptContent x pw saltR ivR).iv) })
    (fj : PasteFile) (hfj : P.files.get ⟨j, hj⟩ = fj)
    (sj ivj : String) (hfjs : fj.salt = some sj) (hfji : fj.iv = some ivj)
    (hsjne : sj ≠ "") (hivjne : ivj ≠ "")
    (e : DecryptError) (herr : decryptContent fj.content pw sj ivj = .error e) :
    (getChildrenPaste st env id isProtected).state = st ∧
    (getChildrenPaste st env id isProtected).log = [] ∧
    (getChildrenPaste st env id isProtected).items.length = P.files.length ∧
    ((getChildrenPaste st env id isProtected).items.getD i emptyFileView).content = x ∧
    ((getChildrenPaste st env id isProtected).items.getD j emptyFileView).content =
      decryptionFailedMarker := by
  have hsne : (encryptContent x pw saltR ivR).salt ≠ "" := by
    show b64encode saltR ≠ ""
    exact b64encode_ne_empty saltR (by intro hc; rw [hc] at hsaltLen; simp [SALT_LENGTH] at hsaltLen)
  have hine : (encryptContent x pw saltR ivR).iv ≠ "" := by
    show b64encode ivR ≠ ""
    exact b64encode_ne_empty ivR (by intro hc; rw [hc] at hivLen; simp [IV_LENGTH] at hivLen)
  have hivne : ivR ≠ [] := by
    intro hc; rw [hc] at hivLen; simp [IV_LENGTH] at hivLen
  rw [getChildrenPaste_session st env id isProtected P pw hsession]
  dsimp only
  refine ⟨rfl, rfl, serveFiles_length st id isProtected P, ?_, ?_⟩
  · rw [serveFiles_getD st id isProtected P i hi]
    dsimp only
    rw [hsession, hfi]
    dsimp only [Option.map]
    unfold decryptedFileContent
    dsimp only
    rw [if_pos ⟨hpw, hsne, hine⟩]
    rw [decryptContent_encryptContent x pw saltR ivR hsalt hiv hivne]
  · rw [serveFiles_getD st id isProtected P j hj]
    dsimp only
    rw [hsession, hfj]
    dsimp only [Option.map]
    unfold decryptedFileContent
    rw [hfjs, hfji]
    dsimp only
    rw [if_pos ⟨hpw, hsjne, hivjne⟩]
    rw [herr]

def sealedFileC5 : PasteFile :=
  { name := "good.txt"
    content := (encryptContent "hi" "pw" (List.replicate 16 0) (List.replicate 12 1)).encrypted
    language := "plaintext", isMain := true
    salt := some ((encryptContent "hi" "pw" (List.replicate 16 0) (List.replicate 12 1)).salt)
    iv := some ((encryptContent "hi" "pw" (List.replicate 16 0) (List.replicate 12 1)).iv) }

def badFileC5 : PasteFile :=
  { name := "bad.txt", content := "", language := "plaintext", isMain := false
    salt := some (b64encode (List.replicate 16 2))
    iv := some (b64encode (List.replicate 12 3)) }

def pasteC5 : Paste := ⟨[sealedFileC5, badFileC5]⟩

def stC5 : ProviderState := ⟨[], [("a", pasteC5, "pw")]⟩

def envNoop : ProviderEnv :=
  { promptResult := none
    unlockResult := fun _ _ => .error .fault
    getPasteResult := fun _ => .error .fault }

theorem spec_c5_per_file_isolation_witness :
    (getChildrenPaste stC5 envNoop "a" true).state = stC5 ∧
    (getChildrenPaste stC5 envNoop "a" true).log = [] ∧
    (getChildrenPaste stC5 envNoop "a" true).items.length = pasteC5.files.length ∧
    ((getChildrenPaste stC5 envNoop "a" true).items.getD 0 emptyFileView).content = "hi" ∧
    ((getChildrenPaste stC5 envNoop "a" true).items.getD 1 emptyFileView).content =
      decryptionFailedMarker :=
  spec_c5_per_file_isolation stC5 envNoop "a" true pasteC5 "pw" rfl (by decide)
    0 1 (by decide) (by decide)
    "hi" "good.txt" "plaintext" true (List.replicate 16 0) (List.replicate 12 1)
    (by decide) (by decide) (by decide) (by decide)
    rfl
    badFileC5 rfl
    (b64encode (List.replicate 16 2)) (b64encode (List.replicate 12 3)) rfl rfl
    (b64encode_ne_empty _ (by decide)) (b64encode_ne_empty _ (by decide))
    DecryptError.invalidTagLength rfl

/-- C6: Failed unlock leaves no trace — when the store denies the unlock of a
protected paste, `getChildren` returns empty with both cache maps exactly as
they were (no session is created), and any subsequent `getChildren` for the
same identifier still invokes the passphrase prompt. -/
theorem spec_c6_failed_unlock (st : ProviderState) (env : ProviderEnv) (id pw : String)
    (hnosession : alookup st.unlockedPastes id = none)
    (hprompt : env.promptResult = some pw) (hpw : pw ≠ "")
    (hdeny : env.unlockResult id pw = .error .accessDenied) :
    getChildrenPaste st env id true =
      { state := st, items := [], log := [.prompted, .unlockCalled id pw] } ∧
    (∀ env2 : ProviderEnv, .prompted ∈ (getChildrenPaste st env2 id true).log) := by
  constructor
  · unfold getChildrenPaste
    rw [if_pos (by simp [hnosession]), hprompt]
    dsimp only
    rw [if_neg hpw, hdeny]
  · intro env2
    unfold getChildrenPaste
    rw [if_pos (by simp [hnosession])]
    cases henv : env2.promptResult with
    | none => simp
    | some pw2 =>
      dsimp only
      by_cases hpw2 : pw2 = ""
      · rw [if_pos hpw2]; simp
      · rw [if_neg hpw2]
        cases hul : env2.unlockResult id pw2 with
        | ok paste2 =>
          dsimp only
          obtain ⟨t, ht⟩ := getChildrenFetch_log
            { st with unlockedPastes := (id, paste2, pw2) :: st.unlockedPastes }
            env2 id true [.prompted, .unlockCalled id pw2]
          rw [ht]
          simp
        | error e => simp

def stC6 : ProviderState := ⟨[("b", pasteC5)], []⟩

def envDeny : ProviderEnv :=
  { promptResult := some "guess"
    unlockResult := fun _ _ => .error .accessDenied
    getPasteResult := fun _ => .error .fault }

theorem spec_c6_failed_unlock_witness :
    getChildrenPaste stC6 envDeny "a" true =
      { state := stC6, items := [], log := [.prompted, .unlockCalled "a" "guess"] } ∧
    (∀ env2 : ProviderEnv, .prompted ∈ (getChildrenPaste stC6 env2 "a" true).log) :=
  spec_c6_failed_unlock stC6 envDeny "a" "guess" rfl rfl (by decide) rfl

def stC7 : ProviderState := ⟨[("p1", pasteC5)], []⟩

/-- C7 counterexample: the claim says a `GetFiles` call for an identifier
with an existing `PlainCacheEntry` performs zero prompt invocations — but for
a protected item the code checks only `unlockedPastes`, so with `p1` present
in `pasteCache` (and no session) it still invokes the prompt. -/
theorem spec_c7_counterexample :
    alookup stC7.pasteCache "p1" = some pasteC5 ∧
    alookup stC7.unlockedPastes "p1" = none ∧
    (getChildrenPaste stC7 envNoop "p1" true).log = [.prompted] := by
  refine ⟨rfl, rfl, ?_⟩
  unfold getChildrenPaste
  rw [if_pos (by decide)]
  rfl

/-- C7 amended: a `GetFiles` call is served from the cache with zero
remote-store and zero prompt invocations whenever an `UnlockSession` exists
for the identifier, or the item is not protected and a `PlainCacheEntry`
exists; in particular a second call after a successful unlock performs no
external invocations.  (A protected item with only a `PlainCacheEntry` still
prompts, as the counterexample shows.) -/
theorem spec_c7_amended (st : ProviderState) (env : ProviderEnv) (id : String) :
    (∀ isProtected P pw, alookup st.unlockedPastes id = some (P, pw) →
      (getChildrenPaste st env id isProtected).state = st ∧
      (getChildrenPaste st env id isProtected).log = []) ∧
    (∀ P, alookup st.unlockedPastes id = none → alookup st.pasteCache id = some P →
      (getChildrenPaste st env id false).state = st ∧
      (getChildrenPaste st env id false).log = []) := by
  constructor
  · intro isProtected P pw hsession
    rw [getChildrenPaste_session st env id isProtected P pw hsession]
    exact ⟨rfl, rfl⟩
  · intro P hnosession hcache
    rw [getChildrenPaste_cacheHit st env id P hnosession hcache]
    exact ⟨rfl, rfl⟩

theorem spec_c7_amended_witness :
    (getChildrenPaste stC5 envNoop "a" true).state = stC5 ∧
    (getChildrenPaste stC5 envNoop "a" true).log = [] :=
  (spec_c7_amended stC5 envNoop "a").1 true pasteC5 "pw" rfl

def stC8 : ProviderState := ⟨[], [("p1", pasteC5, "pw")]⟩

def envPromptReady : ProviderEnv :=
  { promptResult := some "retry"
    unlockResult := fun _ _ => .ok pasteC5
    getPasteResult := fun _ => .error .accessDenied }

/-- C8 counterexample: the claim says that an access-denied store response
received while an `UnlockSession` exists drops that session before any
re-prompting — but the error handler keeps the session (it is still present
afterwards) and skips the prompt entirely (empty log), even with a prompt
answer and a willing unlock endpoint available. -/
theorem spec_c8_counterexample :
    alookup stC8.unlockedPastes "p1" = some (pasteC5, "pw") ∧
    getChildrenCatch stC8 envPromptReady "p1" .accessDenied =
      { state := stC8, items := [], log := [] } ∧
    alookup (getChildrenCatch stC8 envPromptReady "p1" .accessDenied).state.unlockedPastes
      "p1" = some (pasteC5, "pw") := by
  refine ⟨rfl, ?_, ?_⟩
  · unfold getChildrenCatch
    rw [if_neg (by decide)]
  · unfold getChildrenCatch
    rw [if_neg (by decide)]
    rfl

/-- C8 amended: when a store error (access-denied or otherwise) reaches the
error handler while an `UnlockSession` exists for the identifier, the handler
neither drops the session nor re-prompts nor retries the stored passphrase:
it returns an empty result with the state, including the session, unchanged
(re-prompting is guarded on the absence of a session). -/
theorem spec_c8_amended (st : ProviderState) (env : ProviderEnv) (id : String)
    (err : StoreErr) (P : Paste) (pw : String)
    (hsession : alookup st.unlockedPastes id = some (P, pw)) :
    getChildrenCatch st env id err = { state := st, items := [], log := [] } := by
  unfold getChildrenCatch
  rw [if_neg (by simp [hsession])]

theorem spec_c8_amended_witness :
    getChildrenCatch stC8 envPromptReady "p1" .fault =
      { state := stC8, items := [], log := [] } :=
  spec_c8_amended stC8 envPromptReady "p1" .fault pasteC5 "pw" rfl

theorem jsTruthyStr_some_ne (s : String) (h : s ≠ "") : jsTruthyStr (some s) = true := by
  simp [jsTruthyStr, bne_iff_ne, h]

/-- C9: The encryption-algorithm quick-pick is cosmetic — for any two chosen
algorithms the create request differs only in its `encryptionLevel` metadata
field; the file body is always `encryptContent`'s AES-256-GCM blob, with the
same key derivation and encodings, and the paste is marked
password-protected with the passphrase attached. -/
theorem spec_c9_algorithm_cosmetic (title fileName content language : String)
    (alg1 alg2 : EncryptionLevel) (passphrase : String) (saltR ivR : List Nat)
    (hsaltne : saltR ≠ []) (hivne : ivR ≠ []) (hpass : passphrase ≠ "") :
    createPastePayload
        (privatePasteOptions title fileName content language alg1 passphrase saltR ivR) =
      { createPastePayload
          (privatePasteOptions title fileName content language alg2 passphrase saltR ivR) with
        encryptionLevel := some alg1 } ∧
    (createPastePayload
        (privatePasteOptions title fileName content language alg1 passphrase saltR ivR)).files =
      [{ name := fileName
         content := (encryptContent content passphrase saltR ivR).encrypted
         language := language, isMain := true
         salt := some ((encryptContent content passphrase saltR ivR).salt)
         iv := some ((encryptContent content passphrase saltR ivR).iv) }] ∧
    (createPastePayload
        (privatePasteOptions title fileName content language alg1 passphrase saltR ivR)).isPasswordProtected
      = true ∧
    (createPastePayload
        (privatePasteOptions title fileName content language alg1 passphrase saltR ivR)).password
      = some passphrase := by
  have hsne : (encryptContent content passphrase saltR ivR).salt ≠ "" :=
    b64encode_ne_empty saltR hsaltne
  have hine : (encryptContent content passphrase saltR ivR).iv ≠ "" :=
    b64encode_ne_empty ivR hivne
  refine ⟨rfl, ?_, rfl, ?_⟩
  · unfold createPastePayload privatePasteOptions basePasteOptions
    dsimp only
    rw [jsTruthyStr_some_ne _ hsne, jsTruthyStr_some_ne _ hine]
    rfl
  · unfold createPastePayload privatePasteOptions basePasteOptions
    dsimp only
    rw [jsTruthyStr_some_ne _ hpass]
    rfl

theorem spec_c9_algorithm_cosmetic_witness :
    (List.replicate 16 0 : List Nat) ≠ [] ∧ (List.replicate 12 1 : List Nat) ≠ [] ∧
    ("hunter2" : String) ≠ "" ∧
    createPastePayload
        (privatePasteOptions "t" "f.txt" "body" "plaintext" .rc4 "hunter2"
          (List.replicate 16 0) (List.replicate 12 1)) =
      { createPastePayload
          (privatePasteOptions "t" "f.txt" "body" "plaintext" .aes "hunter2"
            (List.replicate 16 0) (List.replicate 12 1)) with
        encryptionLevel := some .rc4 } :=
  ⟨by decide, by decide, by decide,
    (spec_c9_algorithm_cosmetic "t" "f.txt" "body" "plaintext" .rc4 .aes "hunter2"
      (List.replicate 16 0) (List.replicate 12 1) (by decide) (by decide) (by decide)).1⟩

/-- C10: Saving re-uploads plaintext — the `saveToPastezen` update request
carries the editor text verbatim as the indexed file's `content` (no sealing
is applied), leaves that file's `salt` and `iv` fields in place, and leaves
every other file unchanged. -/
theorem spec_c10_save_plaintext (paste : Paste) (fileIndex : Nat) (text : String)
    (h : fileIndex < paste.files.length) :
    ∃ body : UpdatePastePayload,
      saveToPastezenRequest paste fileIndex text = some body ∧
      body.files.length = paste.files.length ∧
      (body.files.getD fileIndex emptyPasteFile).content = text ∧
      (body.files.getD fileIndex emptyPasteFile).name =
        (paste.files.get ⟨fileIndex, h⟩).name ∧
      (body.files.getD fileIndex emptyPasteFile).salt =
        (paste.files.get ⟨fileIndex, h⟩).salt ∧
      (body.files.getD fileIndex emptyPasteFile).iv =
        (paste.files.get ⟨fileIndex, h⟩).iv ∧
      ∀ j, j ≠ fileIndex → body.files.getD j emptyPasteFile =
        paste.files.getD j emptyPasteFile := by
  refine ⟨⟨paste.files.set fileIndex
    { paste.files.get ⟨fileIndex, h⟩ with content := text }⟩, ?_, ?_, ?_, ?_, ?_, ?_, ?_⟩
  · unfold saveToPastezenRequest
    rw [dif_pos h]
  · exact List.length_set _ _ _
  all_goals (try (
    rw [show (UpdatePastePayload.mk (paste.files.set fileIndex
        { paste.files.get ⟨fileIndex, h⟩ with content := text })).files =
      paste.files.set fileIndex
        { paste.files.get ⟨fileIndex, h⟩ with content := text } from rfl]))
  · rw [List.getD_eq_getElem?_getD, List.getElem?_set_self (by simpa using h)]
    simp
  · rw [List.getD_eq_getElem?_getD, List.getElem?_set_self (by simpa using h)]
    simp
  · rw [List.getD_eq_getElem?_getD, List.getElem?_set_self (by simpa using h)]
    simp
  · rw [List.getD_eq_getElem?_getD, List.getElem?_set_self (by simpa using h)]
    simp
  · intro j hj
    rw [List.getD_eq_getElem?_getD, List.getD_eq_getElem?_getD,
      List.getElem?_set_ne (by omega)]

def pasteC10 : Paste := ⟨[badFileC5, sealedFileC5]⟩

theorem spec_c10_save_plaintext_witness :
    0 < pasteC10.files.length ∧
    ∃ body : UpdatePastePayload,
      saveToPastezenRequest pasteC10 0 "new text" = some body ∧
      body.files.length = pasteC10.files.length ∧
      (body.files.getD 0 emptyPasteFile).content = "new text" ∧
      (body.files.getD 0 emptyPasteFile).name =
        (pasteC10.files.get ⟨0, by decide⟩).name ∧
      (body.files.getD 0 emptyPasteFile).salt =
        (pasteC10.files.get ⟨0, by decide⟩).salt ∧
      (body.files.getD 0 emptyPasteFile).iv =
        (pasteC10.files.get ⟨0, by decide⟩).iv ∧
      ∀ j, j ≠ 0 → body.files.getD j emptyPasteFile =
        pasteC10.files.getD j emptyPasteFile :=
  ⟨by decide, spec_c10_save_plaintext pasteC10 0 "new text" (by decide)⟩
